import Mathlib

/-!
Formal model of the pylmdb sample store (`src/pylmdb/pylmdb.py`).

The development shallowly embeds the Reader/Writer/merge_db layer of the
repository.  Python strings and the byte strings stored in LMDB are both
modelled as `List Nat` (their UTF-8 byte sequences); the helper module
`tools.py` is not part of the provided sources, so the codec helpers it
supplies (`encode_str`/`decode_str`, the msgpack hooks `encode_data` /
`decode_data`, and the constants `NB_SAMPLES`, `DATA_DB`, `META_DB`) are
modelled from the specification, as flagged on each definition below.
Everything else is translated directly from `pylmdb.py`.
-/

namespace PyLmdb

/-! ### Association lists

LMDB `txn.get` / `txn.put` inside one named database are modelled as lookup
and upsert on an association list. -/

def alookup {α β : Type} [DecidableEq α] : List (α × β) → α → Option β
  | [], _ => none
  | (k, v) :: t, x => if k = x then some v else alookup t x

def aput {α β : Type} [DecidableEq α] : List (α × β) → α → β → List (α × β)
  | [], x, v => [(x, v)]
  | (k, w) :: t, x, v => if k = x then (x, v) :: t else (k, w) :: aput t x v

/-! ### Fixed-width decimal rendering

`digitsW w n` is the list of the `w` base-10 digits of `n`, most significant
first, exactly the digit string produced by Python's zero-padded format when
`n < 10 ^ w`. -/

def digitsW : Nat → Nat → List Nat
  | 0, _ => []
  | w + 1, n => n / 10 ^ w % 10 :: digitsW w (n % 10 ^ w)

/-- Strict byte-wise lexicographic comparison, the order LMDB uses on keys. -/
def byteLexLt : List Nat → List Nat → Bool
  | [], [] => false
  | [], _ :: _ => true
  | _ :: _, [] => false
  | a :: as, b :: bs => if a < b then true else if a = b then byteLexLt as bs else false

/-- Digit-count worker, structurally recursive on a fuel argument that always
dominates the value being measured. -/
def numDigitsGo : Nat → Nat → Nat
  | 0, _ => 1
  | fuel + 1, n => if n < 10 then 1 else numDigitsGo fuel (n / 10) + 1

/-- Number of decimal digits of `n` (1 for `n = 0`). -/
def numDigits (n : Nat) : Nat := numDigitsGo n n

instance {ε α : Type} [DecidableEq ε] [DecidableEq α] : DecidableEq (Except ε α) := fun x y =>
  match x, y with
  | .error a, .error b =>
    if h : a = b then .isTrue (by rw [h]) else .isFalse (fun hh => h (Except.error.inj hh))
  | .error _, .ok _ => .isFalse (fun hh => Except.noConfusion hh)
  | .ok _, .error _ => .isFalse (fun hh => Except.noConfusion hh)
  | .ok a, .ok b =>
    if h : a = b then .isTrue (by rw [h]) else .isFalse (fun hh => h (Except.ok.inj hh))

/-- Model of the data-namespace key for a non-negative index: the UTF-8 bytes
of `"{:010}".format(n)` (zero-padded to width 10, wider if `n` needs more
digits, as Python's format never truncates). -/
def natKey (n : Nat) : List Nat := (digitsW (max 10 (numDigits n)) n).map (· + 48)

/-- Model of `"{:010}".format(i)` for a Python `int` (negative values render
with a leading minus sign inside the padded width, as CPython does). -/
def keyOfIndex (i : Int) : List Nat :=
  if i < 0 then 45 :: (digitsW (max 9 (numDigits i.natAbs)) i.natAbs).map (· + 48)
  else natKey i.toNat

/-- Model of Python's `str(n)` for a natural number: its decimal digits. -/
def pyStrNat (n : Nat) : List Nat := (digitsW (numDigits n) n).map (· + 48)

/-- Model of Python's `str(i)` for an `int`. -/
def pyStrInt (i : Int) : List Nat :=
  if i < 0 then 45 :: pyStrNat i.natAbs else pyStrNat i.toNat

def isWSByte (b : Nat) : Bool := decide (b = 9 ∨ b = 10 ∨ b = 11 ∨ b = 12 ∨ b = 13 ∨ b = 32)

def isDigitByte (b : Nat) : Bool := decide (48 ≤ b ∧ b ≤ 57)

def stripWS (l : List Nat) : List Nat :=
  ((l.dropWhile isWSByte).reverse.dropWhile isWSByte).reverse

def digitsVal? (l : List Nat) : Option Nat :=
  if l.isEmpty then none
  else if l.all isDigitByte then some (l.foldl (fun a b => a * 10 + (b - 48)) 0)
  else none

def pyIntCore : List Nat → Option Int
  | [] => none
  | b :: r =>
    if b = 43 then (digitsVal? r).map (fun n => (n : Int))
    else if b = 45 then (digitsVal? r).map (fun n => -(n : Int))
    else (digitsVal? (b :: r)).map (fun n => (n : Int))

/-- Model of Python's `int(s)` on the bytes of a string: optional surrounding
whitespace, optional sign, then a non-empty run of ASCII digits (digit-group
underscores and non-ASCII digits are not modelled). Returns `none` where
`int` raises `ValueError`. -/
def pyInt? (s : List Nat) : Option Int := pyIntCore (stripWS s)

/-! ### Data model

Numpy arrays are modelled by their observable attributes: dtype descriptor
(as a byte string), per-element size, shape, and flattened contents. -/

structure NDArray where
  dtype : List Nat
  itemsize : Nat
  shape : List Nat
  data : List Int
deriving DecidableEq

/-- Model of `ndarray.nbytes` (`itemsize` times the number of elements). -/
def NDArray.nbytes (a : NDArray) : Nat := a.itemsize * a.shape.foldl (· * ·) 1

/-- Modelled from the spec: the self-describing inner blob produced by the
msgpack custom-type hook `encode_data` from the missing `tools.py` — carries
enough information (dtype, itemsize, shape, raw element bytes) to rebuild the
array. -/
structure InnerBlob where
  dtype : List Nat
  itemsize : Nat
  shape : List Nat
  raw : List Int
deriving DecidableEq

/-- Modelled from the spec: the `encode_data` hook of the missing `tools.py`
(`encode_array(array) -> blob`, a self-describing array encoding). -/
def encode_data (a : NDArray) : InnerBlob := ⟨a.dtype, a.itemsize, a.shape, a.data⟩

/-- Modelled from the spec: the `decode_data` hook of the missing `tools.py`
(`decode_array(blob) -> array`, inverse of `encode_array`). -/
def decode_data (b : InnerBlob) : NDArray := ⟨b.dtype, b.itemsize, b.shape, b.raw⟩

/-- Value of one field as passed by a caller to `put_samples`/`change_value`:
either a real `numpy.ndarray`, or any other Python value, carried together
with the zero-dimensional (or otherwise coerced) array `np.array` would turn
it into. -/
inductive FieldValue where
  | ndarray (a : NDArray)
  | nonArray (coerced : NDArray)
deriving DecidableEq

/-- Model of `isinstance(v, np.ndarray)`. -/
def FieldValue.isNd : FieldValue → Bool
  | .ndarray _ => true
  | .nonArray _ => false

/-- Model of `np.array(obj)` applied where the source coerces (dead code in
`put_samples`, see C4). -/
def FieldValue.npArray : FieldValue → NDArray
  | .ndarray a => a
  | .nonArray c => c

/-- Decoded sample as returned by `Reader.get_sample`: field name to array,
in insertion order (Python dicts preserve it). -/
abbrev OuterMap := List (List Nat × NDArray)

/-- Stored value in the data namespace: field name to inner blob (the outer
msgpack map; msgpack round-trips it, so it is kept in decoded form). -/
abbrev StoredVal := List (List Nat × InnerBlob)

abbrev MetaMap := List (List Nat × List Nat)

def encodeOuter (m : OuterMap) : StoredVal := m.map fun p => (p.1, encode_data p.2)

def decodeOuter (v : StoredVal) : OuterMap := v.map fun p => (p.1, decode_data p.2)

/-- Wrap a mapping of genuine arrays as `put_samples` input. -/
def wrapArr (m : OuterMap) : List (List Nat × FieldValue) :=
  m.map fun p => (p.1, FieldValue.ndarray p.2)

/-- Reserved metadata key, the UTF-8 bytes of the string nb_samples.
Modelled from the spec (`NB_SAMPLES` lives in the missing `tools.py`; its
value is pinned by the comparison with the literal in `merge_db`). -/
def nbSamplesKey : List Nat := [110, 98, 95, 115, 97, 109, 112, 108, 101, 115]

/-- UTF-8 bytes of the Python string produced by `str(None)`. -/
def noneStr : List Nat := [78, 111, 110, 101]

/-- Error taxonomy of the exceptions the source raises. -/
inductive LmdbError where
  | invalidArgument
  | unsupportedType
  | capacityExceeded
  | outOfRange
  | typeError
  | valueError
deriving DecidableEq

/-- One LMDB environment: the data namespace and the metadata namespace. -/
structure Store where
  data : List (List Nat × StoredVal)
  meta : MetaMap
deriving DecidableEq

/-- State of an open `Writer` handle. -/
structure WriterState where
  data : List (List Nat × StoredVal)
  meta : MetaMap
  nb_samples : Int
  db_stats : String
  map_size_limit : Int
  ram_gb_limit : ℚ
deriving DecidableEq

/-- State of an open `Reader` handle. -/
structure ReaderState where
  data : List (List Nat × StoredVal)
  meta : MetaMap
  nb_samples : Int
deriving DecidableEq

def WriterState.store (w : WriterState) : Store := ⟨w.data, w.meta⟩

/-! ### Reader (`class Reader` of `pylmdb.py`) -/

/-- Model of `Reader.get_meta_str`: `txn.get` on the metadata namespace;
an absent key yields Python `None`, which the source stringifies. -/
def get_meta_str (meta : MetaMap) (k : List Nat) : List Nat :=
  match alookup meta k with
  | some v => v
  | none => noneStr

/-- Model of `Reader.__init__`: captures the sample count by parsing the
`nb_samples` metadata value, treating a `ValueError` from `int` as count 0. -/
def readerOpen (s : Store) : ReaderState :=
  { data := s.data, meta := s.meta,
    nb_samples :=
      match pyInt? (get_meta_str s.meta nbSamplesKey) with
      | some n => n
      | none => 0 }

/-- Model of `Reader.get_sample`: bounds check `0 > i or nb_samples <= i`,
then fetch the packed sample at the zero-padded key and decode each field.
`txn.get` on a missing key returns `None` and `msgpack.unpackb(None)` raises
a `TypeError`, modelled as `.error .typeError`. -/
def get_sample (r : ReaderState) (i : Int) : Except LmdbError OuterMap :=
  if i < 0 ∨ r.nb_samples ≤ i then .error .outOfRange
  else
    match alookup r.data (keyOfIndex i) with
    | none => .error .typeError
    | some outer => .ok (decodeOuter outer)

/-- Model of `Reader.__getitem__` on an integer key: Python-style negative
indices are shifted by `len(self)` before the bounds check. -/
def getitem (r : ReaderState) (i : Int) : Except LmdbError OuterMap :=
  let j := if i < 0 then i + r.nb_samples else i
  if j < 0 ∨ r.nb_samples ≤ j then .error .outOfRange
  else get_sample r j

/-- Model of `Reader.get_meta_key_info`: the keys of the metadata namespace
(a Python `set`; represented as the key list of the association list). -/
def get_meta_key_info (meta : MetaMap) : List (List Nat) := meta.map Prod.fst

/-! ### Writer (`class Writer` of `pylmdb.py`) -/

/-- Payload size accumulated by the source with `np.uint64` additions of each
field's `nbytes`, hence reduced modulo `2 ^ 64`. -/
def sumPayload (samples : List (List Nat × FieldValue)) : Nat :=
  ((samples.map fun p => p.2.npArray.nbytes).sum) % 2 ^ 64

/-- Model of `float(gb_required / 10 ** 9)`: exact rational division stands in
for the float64 quotient (for any payload a writer can hold, the rounding
error is far below the one-byte resolution of the comparison). -/
def gbRequired (samples : List (List Nat × FieldValue)) : ℚ :=
  (sumPayload samples : ℚ) / 10 ^ 9

/-- Model of `Writer.set_meta_str`. -/
def set_meta_str (w : WriterState) (k v : List Nat) : WriterState :=
  { w with meta := aput w.meta k v }

/-- Model of `Writer.check_db_stats`: decides create mode vs resume mode from
the stored `nb_samples` value (`if not _k` also treats an empty byte string
as absent); a non-numeric stored count makes `int` raise. -/
def check_db_stats (meta : MetaMap) : Except LmdbError (Int × String) :=
  match alookup meta nbSamplesKey with
  | none => .ok (0, "create_stats")
  | some v =>
    if v = [] then .ok (0, "create_stats")
    else
      match pyInt? v with
      | some n => .ok (n, "auto_update_stats")
      | none => .error .valueError

/-- Model of `Writer.__init__` on the store currently on disk: validates both
limits, then runs `check_db_stats`. -/
def writerOpen (s : Store) (map_size_limit : Int) (ram_gb_limit : ℚ) :
    Except LmdbError WriterState :=
  if map_size_limit ≤ 0 then .error .invalidArgument
  else if ram_gb_limit ≤ 0 then .error .invalidArgument
  else
    match check_db_stats s.meta with
    | .error e => .error e
    | .ok (nb, stats) =>
      .ok { data := s.data, meta := s.meta, nb_samples := nb, db_stats := stats,
            map_size_limit := map_size_limit, ram_gb_limit := ram_gb_limit }

/-- Model of `Writer.put_samples`: reject any non-`ndarray` value, enforce the
RAM budget before any write, then store the packed sample at the current
cursor key (the source's loop re-`put`s a growing partial pack under the same
key, so the final stored value is the full mapping — and an empty mapping
stores nothing), increment the cursor and persist it to metadata.  An error
result models the Python exception: the writer object and the store are left
exactly as they were, since the source raises before any mutation. -/
def put_samples (w : WriterState) (samples : List (List Nat × FieldValue)) :
    Except LmdbError WriterState :=
  if samples.all fun p => p.2.isNd then
    if w.ram_gb_limit < gbRequired samples then .error .capacityExceeded
    else
      let outer := samples.map fun p => (p.1, encode_data p.2.npArray)
      let data' := if samples.isEmpty then w.data
                   else aput w.data (keyOfIndex w.nb_samples) outer
      let nb' := w.nb_samples + 1
      .ok { data := data', meta := aput w.meta nbSamplesKey (pyStrInt nb'),
            nb_samples := nb', db_stats := w.db_stats,
            map_size_limit := w.map_size_limit, ram_gb_limit := w.ram_gb_limit }
  else .error .unsupportedType

/-- Model of `Writer.change_value`: same validation and encode path as
`put_samples` but writing at the caller-chosen index, without touching the
cursor or the metadata count. -/
def change_value (w : WriterState) (num_id : Int)
    (samples : List (List Nat × FieldValue)) : Except LmdbError WriterState :=
  if samples.all fun p => p.2.isNd then
    if w.ram_gb_limit < gbRequired samples then .error .capacityExceeded
    else
      let outer := samples.map fun p => (p.1, encode_data p.2.npArray)
      .ok { w with data := if samples.isEmpty then w.data
                           else aput w.data (keyOfIndex num_id) outer }
  else .error .unsupportedType

/-- Model of `Writer.change_db_value`: only `key < nb_samples` is checked
before delegating to `change_value` (the interactive `safe_model`
confirmation prompt is elided, matching `safe_model=False` or an approving
user). -/
def change_db_value (w : WriterState) (key : Int)
    (samples : List (List Nat × FieldValue)) : Except LmdbError WriterState :=
  if key < w.nb_samples then change_value w key samples else .error .outOfRange

/-- Model of `Writer.close`: persists the count once more and releases the
environment, leaving the on-disk store. -/
def writerClose (w : WriterState) : Store :=
  ⟨w.data, aput w.meta nbSamplesKey (pyStrInt w.nb_samples)⟩

/-- Sequence of `put_samples` calls on mappings of genuine arrays. -/
def putList (w : WriterState) : List OuterMap → Except LmdbError WriterState
  | [] => .ok w
  | m :: rest =>
    match put_samples w (wrapArr m) with
    | .error e => .error e
    | .ok w' => putList w' rest

/-! ### merge_db (`def merge_db` of `pylmdb.py`) -/

/-- Loop `for i in range(nb): merge_db.put_samples(db[i])` of `merge_db`. -/
def putAllFrom (r : ReaderState) : WriterState → List Nat → Except LmdbError WriterState
  | w, [] => .ok w
  | w, i :: rest =>
    match getitem r (i : Int) with
    | .error e => .error e
    | .ok s =>
      match put_samples w (wrapArr s) with
      | .error e => .error e
      | .ok w' => putAllFrom r w' rest

/-- Loop copying metadata keys except the reserved `nb_samples` key. -/
def copyMeta (w : WriterState) (rmeta : MetaMap) : List (List Nat) → WriterState
  | [] => w
  | k :: rest =>
    copyMeta (if k = nbSamplesKey then w else set_meta_str w k (get_meta_str rmeta k))
      rmeta rest

/-- Model of `merge_db(merge_dirpath, A_dirpath, B_dirpath, map_size_limit)`:
a Writer on the target (with the default `ram_gb_limit` of 3), Readers on A
and B; A's samples, then A's metadata (minus the count key), then B's samples
and B's metadata; finally all three handles are closed.  Any exception
propagates, aborting the merge. -/
def merge_db (target A B : Store) (map_size_limit : Int) : Except LmdbError Store :=
  match writerOpen target map_size_limit 3 with
  | .error e => .error e
  | .ok w0 =>
    let ra := readerOpen A
    let rb := readerOpen B
    match putAllFrom ra w0 (List.range ra.nb_samples.toNat) with
    | .error e => .error e
    | .ok w1 =>
      let w2 := copyMeta w1 ra.meta (get_meta_key_info ra.meta)
      match putAllFrom rb w2 (List.range rb.nb_samples.toNat) with
      | .error e => .error e
      | .ok w3 => .ok (writerClose (copyMeta w3 rb.meta (get_meta_key_info rb.meta)))

/-- Total payload of a mapping of arrays, in bytes. -/
def sumNbytes (m : OuterMap) : Nat := (m.map fun p => p.2.nbytes).sum

/-- Invariant tying a writer state to the list of samples appended so far on
a store that started empty. -/
def WInv (w : WriterState) (l : List OuterMap) : Prop :=
  w.nb_samples = (l.length : Int) ∧
  (readerOpen w.store).nb_samples = (l.length : Int) ∧
  ∀ k : Nat, (hk : k < l.length) →
    alookup w.data (keyOfIndex (k : Int)) = some (encodeOuter l[k])

/-! ### Concrete data used by witnesses and counterexamples -/

/-- Writer state produced by opening a fresh (empty) directory. -/
def freshW (msl : Int) (ram : ℚ) : WriterState := ⟨[], [], 0, "create_stats", msl, ram⟩

/-- Writer state after the first merge put (index 0 gets sample `a0`). -/
def mW1 (msl : Int) (a0 : OuterMap) : WriterState :=
  ⟨aput [] (keyOfIndex 0) (encodeOuter a0), aput [] nbSamplesKey (pyStrInt 1), 1,
   "create_stats", msl, 3⟩

/-- Writer state after the second merge put (index 1 gets sample `a1`). -/
def mW2 (msl : Int) (a0 a1 : OuterMap) : WriterState :=
  ⟨aput (mW1 msl a0).data (keyOfIndex 1) (encodeOuter a1),
   aput (mW1 msl a0).meta nbSamplesKey (pyStrInt 2), 2, "create_stats", msl, 3⟩

/-- Writer state after one more put of `b0` on top of `w`. -/
def mW3 (w : WriterState) (b0 : OuterMap) : WriterState :=
  ⟨aput w.data (keyOfIndex w.nb_samples) (encodeOuter b0),
   aput w.meta nbSamplesKey (pyStrInt (w.nb_samples + 1)),
   w.nb_samples + 1, w.db_stats, w.map_size_limit, w.ram_gb_limit⟩

/-- Little-endian float32 array of shape (2,): dtype bytes f4. -/
def arr1 : NDArray := ⟨[102, 52], 4, [2], [1, 2]⟩

/-- Zero-dimensional int64 array: dtype bytes i8. -/
def arr2 : NDArray := ⟨[105, 56], 8, [], [7]⟩

/-- Zero-dimensional int64 array, the result of `np.array(5)`. -/
def nsArr : NDArray := ⟨[105, 56], 8, [], [5]⟩

/-- One-dimensional uint8 array of four billion elements (4 GB payload). -/
def bigArr : NDArray := ⟨[117, 49], 1, [4000000000], []⟩

/-- Sample with single field x. -/
def sampleX : OuterMap := [([120], arr1)]

/-- Sample with single field y. -/
def sampleY : OuterMap := [([121], arr2)]

/-- A Python scalar passed as a field value (not an ndarray). -/
def scalarVal : FieldValue := .nonArray nsArr

/-- Writer state after putting `sampleX` then `sampleY` on a fresh store. -/
def Wc : WriterState :=
  ⟨[(natKey 0, encodeOuter sampleX), (natKey 1, encodeOuter sampleY)],
   [(nbSamplesKey, pyStrNat 2)], 2, "create_stats", 1, 3⟩

/-- Writer state after one `put_samples` of the empty mapping on a fresh
store: counter 1, but no data entry at all. -/
def W1e : WriterState := ⟨[], [(nbSamplesKey, pyStrNat 1)], 1, "create_stats", 1, 3⟩

/-- Writer state after putting just `sampleX` on a fresh store. -/
def Wc1 : WriterState :=
  ⟨[(natKey 0, encodeOuter sampleX)], [(nbSamplesKey, pyStrNat 1)], 1, "create_stats", 1, 3⟩

/-- Writer state obtained by closing `Wc1` and reopening in resume mode. -/
def W2c : WriterState :=
  ⟨[(natKey 0, encodeOuter sampleX)], [(nbSamplesKey, pyStrNat 1)], 1,
   "auto_update_stats", 5, 3⟩

/-- Writer state after one more put of `sampleY` on `W2c`. -/
def W3c : WriterState :=
  ⟨[(natKey 0, encodeOuter sampleX), (natKey 1, encodeOuter sampleY)],
   [(nbSamplesKey, pyStrNat 2)], 2, "auto_update_stats", 5, 3⟩

/-- Writer state reopened on a store closed after zero puts. -/
def W2e : WriterState := ⟨[], [(nbSamplesKey, pyStrNat 0)], 0, "auto_update_stats", 1, 3⟩

/-- Writer state after putting the empty mapping on `W2e`. -/
def W3e : WriterState := ⟨[], [(nbSamplesKey, pyStrNat 1)], 1, "auto_update_stats", 1, 3⟩

/-- Writer state with one committed sample, for overwrite tests. -/
def Wcex : WriterState :=
  ⟨[(natKey 0, encodeOuter sampleX)], [(nbSamplesKey, pyStrNat 1)], 1, "create_stats", 1, 3⟩

/-- Result of `change_db_value(-1, sampleY)` on `Wcex`: the sample lands
under the sign-prefixed key, the count is untouched. -/
def WcexNeg : WriterState :=
  ⟨[(natKey 0, encodeOuter sampleX), (keyOfIndex (-1), encodeOuter sampleY)],
   [(nbSamplesKey, pyStrNat 1)], 1, "create_stats", 1, 3⟩

/-- Reader over a one-sample store. -/
def Rc : ReaderState := ⟨[(natKey 0, encodeOuter sampleX)], [(nbSamplesKey, pyStrNat 1)], 1⟩

/-- Store whose sample-count metadata value is the non-numeric string abc. -/
def badStore : Store := ⟨[], [(nbSamplesKey, [97, 98, 99])]⟩

/-- Metadata of merge source A: count 2, note ↦ first, kk ↦ a. -/
def metaA : MetaMap :=
  [(nbSamplesKey, pyStrNat 2), ([110, 111, 116, 101], [102, 105, 114, 115, 116]),
   ([107, 107], [97])]

/-- Metadata of merge source B: count 1, kk ↦ b (shared with A). -/
def metaB : MetaMap := [(nbSamplesKey, pyStrNat 1), ([107, 107], [98])]

/-- Merge source A with samples `[sampleX, sampleY]`. -/
def Ac : Store := ⟨[(natKey 0, encodeOuter sampleX), (natKey 1, encodeOuter sampleY)], metaA⟩

/-- Merge source B with sample `[sampleX]`. -/
def Bc : Store := ⟨[(natKey 0, encodeOuter sampleX)], metaB⟩

/-- Merge source whose first sample holds a 4 GB payload. -/
def Abig : Store :=
  ⟨[(natKey 0, encodeOuter [([120], bigArr)]), (natKey 1, encodeOuter sampleY)],
   [(nbSamplesKey, pyStrNat 2)]⟩

/-- Small one-sample merge source. -/
def Bsmall : Store := ⟨[(natKey 0, encodeOuter sampleX)], [(nbSamplesKey, pyStrNat 1)]⟩

/-! ### Association list lemmas -/

@[simp]
theorem alookup_nil {α β : Type} [DecidableEq α] (x : α) :
    alookup ([] : List (α × β)) x = none := rfl

@[simp]
theorem alookup_aput_self {α β : Type} [DecidableEq α] (l : List (α × β)) (x : α) (v : β) :
    alookup (aput l x v) x = some v := by
  induction l with
  | nil => simp [aput, alookup]
  | cons p t ih =>
    obtain ⟨k, w⟩ := p
    by_cases h : k = x
    · simp [aput, h, alookup]
    · simp [aput, h, alookup, ih]

theorem alookup_aput_ne {α β : Type} [DecidableEq α] (l : List (α × β)) (x y : α) (v : β)
    (h : y ≠ x) : alookup (aput l x v) y = alookup l y := by
  have hxy : ¬ (x = y) := fun h' => h h'.symm
  induction l with
  | nil => simp [aput, alookup, hxy]
  | cons p t ih =>
    obtain ⟨k, w⟩ := p
    by_cases hk : k = x
    · subst hk
      simp [aput, alookup, hxy]
    · simp [aput, hk, alookup, ih]

theorem alookup_mem_fst {α β : Type} [DecidableEq α] (l : List (α × β)) (x : α) (v : β)
    (h : alookup l x = some v) : x ∈ l.map Prod.fst := by
  induction l with
  | nil => simp [alookup] at h
  | cons p t ih =>
    obtain ⟨k, w⟩ := p
    by_cases hk : k = x
    · simp [hk]
    · simp only [alookup, if_neg hk] at h
      simp [ih h]

theorem alookup_isSome_of_mem_fst {α β : Type} [DecidableEq α] (l : List (α × β)) (x : α)
    (h : x ∈ l.map Prod.fst) : ∃ v, alookup l x = some v := by
  induction l with
  | nil => simp at h
  | cons p t ih =>
    obtain ⟨k, w⟩ := p
    by_cases hk : k = x
    · exact ⟨w, by simp [alookup, hk]⟩
    · simp only [List.map_cons, List.mem_cons] at h
      rcases h with h | h
      · exact absurd h.symm hk
      · obtain ⟨v, hv⟩ := ih h
        exact ⟨v, by simp [alookup, hk, hv]⟩

/-! ### Decimal digit lemmas -/

@[simp]
theorem digitsW_length (w n : Nat) : (digitsW w n).length = w := by
  induction w generalizing n with
  | zero => rfl
  | succ w ih => simp [digitsW, ih]

theorem digitsW_mem_lt (w n : Nat) : ∀ d ∈ digitsW w n, d < 10 := by
  induction w generalizing n with
  | zero => intro d hd; simp [digitsW] at hd
  | succ w ih =>
    intro d hd
    simp only [digitsW, List.mem_cons] at hd
    rcases hd with h | h
    · subst h
      exact Nat.mod_lt _ (by norm_num)
    · exact ih _ d h

theorem digitsW_foldl (w : Nat) : ∀ n a : Nat, n < 10 ^ w →
    (digitsW w n).foldl (fun x d => x * 10 + d) a = a * 10 ^ w + n := by
  induction w with
  | zero =>
    intro n a hn
    simp only [pow_zero, Nat.lt_one_iff] at hn
    simp [digitsW, hn]
  | succ w ih =>
    intro n a hn
    have hdiv : n / 10 ^ w < 10 := by
      apply Nat.div_lt_of_lt_mul
      calc n < 10 ^ (w + 1) := hn
        _ = 10 ^ w * 10 := by ring
    have hmod : n % 10 ^ w < 10 ^ w := Nat.mod_lt _ (by positivity)
    simp only [digitsW, List.foldl_cons]
    have hdm : 10 ^ w * (n / 10 ^ w) + n % 10 ^ w = n := Nat.div_add_mod n (10 ^ w)
    have hexp : (a * 10 + n / 10 ^ w) * 10 ^ w
        = a * (10 ^ w * 10) + 10 ^ w * (n / 10 ^ w) := by ring
    rw [Nat.mod_eq_of_lt hdiv, ih (n % 10 ^ w) (a * 10 + n / 10 ^ w) hmod, pow_succ, hexp]
    omega

theorem digitsW_inj {w m n : Nat} (hm : m < 10 ^ w) (hn : n < 10 ^ w)
    (h : digitsW w m = digitsW w n) : m = n := by
  have h1 := digitsW_foldl w m 0 hm
  have h2 := digitsW_foldl w n 0 hn
  rw [h] at h1
  omega

theorem byteLexLt_digits (w : Nat) : ∀ i j : Nat, i < j → j < 10 ^ w →
    byteLexLt ((digitsW w i).map (· + 48)) ((digitsW w j).map (· + 48)) = true := by
  induction w with
  | zero =>
    intro i j hij hj
    simp only [pow_zero, Nat.lt_one_iff] at hj
    omega
  | succ w ih =>
    intro i j hij hj
    have hi : i < 10 ^ (w + 1) := lt_trans hij hj
    have hjd : j / 10 ^ w < 10 := by
      apply Nat.div_lt_of_lt_mul
      calc j < 10 ^ (w + 1) := hj
        _ = 10 ^ w * 10 := by ring
    have hid : i / 10 ^ w < 10 := by
      apply Nat.div_lt_of_lt_mul
      calc i < 10 ^ (w + 1) := hi
        _ = 10 ^ w * 10 := by ring
    have hle : i / 10 ^ w ≤ j / 10 ^ w := Nat.div_le_div_right (le_of_lt hij)
    simp only [digitsW, List.map_cons]
    rw [Nat.mod_eq_of_lt hid, Nat.mod_eq_of_lt hjd]
    rcases lt_or_eq_of_le hle with hlt | heq
    · simp only [byteLexLt, if_pos (by omega : i / 10 ^ w + 48 < j / 10 ^ w + 48)]
    · have hmods : i % 10 ^ w < j % 10 ^ w := by
        have hi' : 10 ^ w * (j / 10 ^ w) + i % 10 ^ w = i := by
          rw [← heq]; exact Nat.div_add_mod i (10 ^ w)
        have hj' : 10 ^ w * (j / 10 ^ w) + j % 10 ^ w = j := Nat.div_add_mod j (10 ^ w)
        omega
      have hjm : j % 10 ^ w < 10 ^ w := Nat.mod_lt _ (by positivity)
      simp only [byteLexLt, heq, lt_irrefl, if_neg (lt_irrefl _), if_pos rfl]
      exact ih _ _ hmods hjm

/-! ### Key lemmas -/

theorem numDigitsGo_pos : ∀ fuel n : Nat, 0 < numDigitsGo fuel n := by
  intro fuel
  induction fuel with
  | zero => intro n; simp [numDigitsGo]
  | succ f ih =>
    intro n
    rw [numDigitsGo]
    split
    · omega
    · have := ih (n / 10)
      omega

theorem numDigits_pos (n : Nat) : 0 < numDigits n := numDigitsGo_pos n n

theorem numDigitsGo_lt_pow : ∀ fuel n : Nat, n ≤ fuel → n < 10 ^ numDigitsGo fuel n := by
  intro fuel
  induction fuel with
  | zero =>
    intro n h
    have hn : n = 0 := by omega
    subst hn
    norm_num [numDigitsGo]
  | succ f ih =>
    intro n h
    rw [numDigitsGo]
    split
    · next hn => simpa using hn
    · next hn =>
      push_neg at hn
      have hd : n / 10 ≤ f := by
        have : n / 10 < n := Nat.div_lt_self (by omega) (by omega)
        omega
      have hk := ih (n / 10) hd
      rw [pow_succ]
      have hdm : 10 * (n / 10) + n % 10 = n := Nat.div_add_mod n 10
      have hmod : n % 10 < 10 := Nat.mod_lt _ (by omega)
      omega

theorem lt_pow_numDigits (n : Nat) : n < 10 ^ numDigits n := numDigitsGo_lt_pow n n le_rfl

theorem numDigitsGo_le : ∀ fuel n w : Nat, n ≤ fuel → 0 < w → n < 10 ^ w →
    numDigitsGo fuel n ≤ w := by
  intro fuel
  induction fuel with
  | zero =>
    intro n w h hw hnw
    simp [numDigitsGo]
    omega
  | succ f ih =>
    intro n w h hw hnw
    rw [numDigitsGo]
    split
    · omega
    · next hn =>
      push_neg at hn
      have hw2 : 2 ≤ w := by
        by_contra hc
        push_neg at hc
        have hw1 : w = 1 := by omega
        subst hw1
        simp at hnw
        omega
      have hd : n / 10 ≤ f := by
        have : n / 10 < n := Nat.div_lt_self (by omega) (by omega)
        omega
      have hdiv : n / 10 < 10 ^ (w - 1) := by
        apply Nat.div_lt_of_lt_mul
        have hpw : 10 ^ w = 10 * 10 ^ (w - 1) := by
          rw [← pow_succ']
          congr 1
          omega
        omega
      have := ih (n / 10) (w - 1) hd (by omega) hdiv
      omega

theorem numDigits_le_of_lt_pow {n w : Nat} (hw : 0 < w) (h : n < 10 ^ w) :
    numDigits n ≤ w := numDigitsGo_le n n w le_rfl hw h

theorem natKey_eq_of_lt {n : Nat} (h : n < 10 ^ 10) :
    natKey n = (digitsW 10 n).map (· + 48) := by
  unfold natKey
  rw [max_eq_left (numDigits_le_of_lt_pow (by norm_num) h)]

theorem natKey_injective : Function.Injective natKey := by
  intro m n h
  unfold natKey at h
  have hlen : max 10 (numDigits m) = max 10 (numDigits n) := by
    have := congrArg List.length h
    simpa using this
  set W := max 10 (numDigits n) with hW
  rw [hlen] at h
  have hm : m < 10 ^ W := by
    calc m < 10 ^ numDigits m := lt_pow_numDigits m
      _ ≤ 10 ^ W := Nat.pow_le_pow_right (by norm_num) (by rw [← hlen]; exact le_max_right _ _)
  have hn : n < 10 ^ W := by
    calc n < 10 ^ numDigits n := lt_pow_numDigits n
      _ ≤ 10 ^ W := Nat.pow_le_pow_right (by norm_num) (le_max_right _ _)
  have hd : digitsW W m = digitsW W n :=
    List.map_injective_iff.mpr (add_left_injective 48) h
  exact digitsW_inj hm hn hd

theorem natKey_head (n : Nat) : ∃ d t, natKey n = (d + 48) :: t := by
  unfold natKey
  have : 0 < max 10 (numDigits n) := by omega
  obtain ⟨w, hw⟩ := Nat.exists_eq_succ_of_ne_zero (by omega : max 10 (numDigits n) ≠ 0)
  rw [hw]
  exact ⟨_, _, rfl⟩

theorem keyOfIndex_injective : Function.Injective keyOfIndex := by
  intro a b h
  unfold keyOfIndex at h
  by_cases ha : a < 0 <;> by_cases hb : b < 0
  · rw [if_pos ha, if_pos hb] at h
    injection h with h0 h'
    have hlen : max 9 (numDigits a.natAbs) = max 9 (numDigits b.natAbs) := by
      have := congrArg List.length h'
      simpa using this
    set W := max 9 (numDigits b.natAbs) with hW
    rw [hlen] at h'
    have hm : a.natAbs < 10 ^ W := by
      calc a.natAbs < 10 ^ numDigits a.natAbs := lt_pow_numDigits _
        _ ≤ 10 ^ W := Nat.pow_le_pow_right (by norm_num)
              (by rw [← hlen]; exact le_max_right _ _)
    have hn : b.natAbs < 10 ^ W := by
      calc b.natAbs < 10 ^ numDigits b.natAbs := lt_pow_numDigits _
        _ ≤ 10 ^ W := Nat.pow_le_pow_right (by norm_num) (le_max_right _ _)
    have habs : a.natAbs = b.natAbs :=
      digitsW_inj hm hn (List.map_injective_iff.mpr (add_left_injective 48) h')
    omega
  · rw [if_pos ha, if_neg hb] at h
    obtain ⟨d, t, hd⟩ := natKey_head b.toNat
    rw [hd] at h
    injection h with h0 h1
    omega
  · rw [if_neg ha, if_pos hb] at h
    obtain ⟨d, t, hd⟩ := natKey_head a.toNat
    rw [hd] at h
    injection h with h0 h1
    omega
  · rw [if_neg ha, if_neg hb] at h
    have := natKey_injective h
    omega

theorem keyOfIndex_natCast (k : Nat) : keyOfIndex (k : Int) = natKey k := by
  unfold keyOfIndex
  rw [if_neg (by omega : ¬ ((k : Int) < 0))]
  simp

/-! ### Python int parsing lemmas -/

theorem dropWhile_eq_self_of {p : Nat → Bool} :
    ∀ l : List Nat, (∀ b ∈ l, p b = false) → l.dropWhile p = l := by
  intro l h
  cases l with
  | nil => rfl
  | cons a t => simp [List.dropWhile, h a (by simp)]

theorem stripWS_of_forall (l : List Nat) (h : ∀ b ∈ l, isWSByte b = false) :
    stripWS l = l := by
  unfold stripWS
  rw [dropWhile_eq_self_of l h, dropWhile_eq_self_of l.reverse (by simpa using h),
    List.reverse_reverse]

theorem pyStrNat_forall_digit (n : Nat) : ∀ b ∈ pyStrNat n, isDigitByte b = true := by
  intro b hb
  unfold pyStrNat at hb
  simp only [List.mem_map] at hb
  obtain ⟨d, hd, rfl⟩ := hb
  have := digitsW_mem_lt _ _ d hd
  simp [isDigitByte]
  omega

theorem pyStrNat_ne_nil (n : Nat) : pyStrNat n ≠ [] := by
  unfold pyStrNat
  intro h
  have := congrArg List.length h
  simp at this
  have := numDigits_pos n
  omega

theorem digitsVal?_pyStrNat (n : Nat) : digitsVal? (pyStrNat n) = some n := by
  have hne : (pyStrNat n).isEmpty = false := by
    cases hp : pyStrNat n with
    | nil => exact absurd hp (pyStrNat_ne_nil n)
    | cons a t => rfl
  unfold digitsVal?
  rw [hne]
  simp only [Bool.false_eq_true, if_false]
  rw [if_pos (List.all_eq_true.mpr (pyStrNat_forall_digit n))]
  unfold pyStrNat
  rw [List.foldl_map]
  have heq : (fun (a d : Nat) => a * 10 + (d + 48 - 48)) = fun a d => a * 10 + d := by
    funext a d
    omega
  rw [heq, digitsW_foldl _ _ _ (lt_pow_numDigits n)]
  norm_num

theorem pyInt?_pyStrNat (n : Nat) : pyInt? (pyStrNat n) = some (n : Int) := by
  have hws : ∀ b ∈ pyStrNat n, isWSByte b = false := by
    intro b hb
    have := pyStrNat_forall_digit n b hb
    simp [isDigitByte] at this
    simp [isWSByte]
    omega
  unfold pyInt?
  rw [stripWS_of_forall _ hws]
  cases hp : pyStrNat n with
  | nil => exact absurd hp (pyStrNat_ne_nil n)
  | cons b r =>
    have hbd : isDigitByte b = true := pyStrNat_forall_digit n b (by rw [hp]; simp)
    simp only [isDigitByte, decide_eq_true_eq] at hbd
    simp only [pyIntCore]
    rw [if_neg (by omega), if_neg (by omega), ← hp, digitsVal?_pyStrNat]
    rfl

theorem pyInt?_pyStrInt_ofNat (n : Nat) : pyInt? (pyStrInt (n : Int)) = some (n : Int) := by
  unfold pyStrInt
  rw [if_neg (by omega : ¬ ((n : Int) < 0))]
  simpa using pyInt?_pyStrNat n

theorem pyInt?_noneStr : pyInt? noneStr = none := by decide

theorem pyStrInt_natCast_ne_nil (n : Nat) : pyStrInt (n : Int) ≠ [] := by
  unfold pyStrInt
  rw [if_neg (by omega : ¬ ((n : Int) < 0))]
  simpa using pyStrNat_ne_nil n

/-! ### Codec lemmas -/

@[simp]
theorem decode_encode_data (a : NDArray) : decode_data (encode_data a) = a := rfl

@[simp]
theorem decodeOuter_encodeOuter (m : OuterMap) : decodeOuter (encodeOuter m) = m := by
  induction m with
  | nil => rfl
  | cons p t ih =>
    obtain ⟨k, a⟩ := p
    simp [decodeOuter, encodeOuter] at ih ⊢
    exact ih

theorem wrapArr_all_isNd (m : OuterMap) : ((wrapArr m).all fun p => p.2.isNd) = true := by
  induction m with
  | nil => rfl
  | cons p t ih =>
    obtain ⟨k, a⟩ := p
    simpa [wrapArr, FieldValue.isNd] using ih

theorem wrapArr_isEmpty (m : OuterMap) : (wrapArr m).isEmpty = m.isEmpty := by
  cases m <;> rfl

theorem isEmpty_false_of_ne_nil (m : OuterMap) (h : m ≠ []) : m.isEmpty = false := by
  cases m with
  | nil => exact absurd rfl h
  | cons a t => rfl

theorem wrapArr_encode (m : OuterMap) :
    ((wrapArr m).map fun p => (p.1, encode_data p.2.npArray)) = encodeOuter m := by
  induction m with
  | nil => rfl
  | cons p t ih =>
    obtain ⟨k, a⟩ := p
    simp [wrapArr, encodeOuter, FieldValue.npArray]

theorem sumPayload_wrapArr (m : OuterMap) :
    sumPayload (wrapArr m) = sumNbytes m % 2 ^ 64 := by
  have hmap : ((wrapArr m).map fun p => p.2.npArray.nbytes)
      = m.map fun p => p.2.nbytes := by
    induction m with
    | nil => rfl
    | cons p t ih =>
      obtain ⟨k, a⟩ := p
      simp [wrapArr, FieldValue.npArray]
  unfold sumPayload sumNbytes
  rw [hmap]

theorem capacity_ok3 (m : OuterMap) (h : sumNbytes m ≤ 3000000000) :
    ¬ ((3 : ℚ) < gbRequired (wrapArr m)) := by
  have h64 : sumNbytes m < 2 ^ 64 := lt_of_le_of_lt h (by norm_num)
  unfold gbRequired
  rw [sumPayload_wrapArr, Nat.mod_eq_of_lt h64, not_lt,
    div_le_iff₀ (by norm_num : (0 : ℚ) < 10 ^ 9)]
  have : (sumNbytes m : ℚ) ≤ 3000000000 := by exact_mod_cast h
  linarith

/-! ### Writer operation lemmas -/

theorem put_samples_ok {w w' : WriterState} {s : List (List Nat × FieldValue)}
    (h : put_samples w s = .ok w') :
    w' = { data := if s.isEmpty then w.data
                   else aput w.data (keyOfIndex w.nb_samples)
                     (s.map fun p => (p.1, encode_data p.2.npArray)),
           meta := aput w.meta nbSamplesKey (pyStrInt (w.nb_samples + 1)),
           nb_samples := w.nb_samples + 1, db_stats := w.db_stats,
           map_size_limit := w.map_size_limit, ram_gb_limit := w.ram_gb_limit } := by
  unfold put_samples at h
  split at h
  · split at h
    · exact absurd h (by simp)
    · simp only [Except.ok.injEq] at h
      exact h.symm
  · exact absurd h (by simp)

theorem put_samples_wrap_eq (w : WriterState) (m : OuterMap)
    (hcap : ¬ w.ram_gb_limit < gbRequired (wrapArr m)) :
    put_samples w (wrapArr m) =
      .ok { data := if m.isEmpty then w.data
                    else aput w.data (keyOfIndex w.nb_samples) (encodeOuter m),
            meta := aput w.meta nbSamplesKey (pyStrInt (w.nb_samples + 1)),
            nb_samples := w.nb_samples + 1, db_stats := w.db_stats,
            map_size_limit := w.map_size_limit, ram_gb_limit := w.ram_gb_limit } := by
  unfold put_samples
  rw [if_pos (wrapArr_all_isNd m), if_neg hcap, wrapArr_encode, wrapArr_isEmpty]

theorem put_samples_wrap_ok (w : WriterState) (m : OuterMap) (hm : m ≠ [])
    (hcap : ¬ w.ram_gb_limit < gbRequired (wrapArr m)) :
    put_samples w (wrapArr m) = .ok (mW3 w m) := by
  rw [put_samples_wrap_eq w m hcap]
  rw [isEmpty_false_of_ne_nil m hm]
  simp [mW3]

theorem change_value_wrap_eq (w : WriterState) (num_id : Int) (m : OuterMap)
    (hcap : ¬ w.ram_gb_limit < gbRequired (wrapArr m)) :
    change_value w num_id (wrapArr m) =
      .ok { w with data := if m.isEmpty then w.data
                           else aput w.data (keyOfIndex num_id) (encodeOuter m) } := by
  unfold change_value
  rw [if_pos (wrapArr_all_isNd m), if_neg hcap, wrapArr_encode, wrapArr_isEmpty]

theorem readerOpen_nb_of_count (s : Store) (n : Nat)
    (h : alookup s.meta nbSamplesKey = some (pyStrInt (n : Int))) :
    (readerOpen s).nb_samples = (n : Int) := by
  simp only [readerOpen, get_meta_str, h, pyInt?_pyStrInt_ofNat]

theorem writerOpen_empty_elim {msl : Int} {ram : ℚ} {w0 : WriterState}
    (h : writerOpen ⟨[], []⟩ msl ram = .ok w0) :
    w0 = ⟨[], [], 0, "create_stats", msl, ram⟩ := by
  unfold writerOpen check_db_stats at h
  split at h
  · exact absurd h (by simp)
  · split at h
    · exact absurd h (by simp)
    · simp only [alookup_nil, Except.ok.injEq] at h
      exact h.symm

theorem writerOpen_empty (msl : Int) (h1 : 0 < msl) :
    writerOpen (⟨[], []⟩ : Store) msl 3 = .ok (freshW msl 3) := by
  unfold writerOpen check_db_stats freshW
  rw [if_neg (by omega : ¬ msl ≤ 0), if_neg (by norm_num : ¬ (3 : ℚ) ≤ 0)]
  rfl

theorem writerOpen_pos (s : Store) (msl : Int) (ram : ℚ) (hm : 0 < msl) (hr : 0 < ram)
    (nb : Int) (stats : String) (hc : check_db_stats s.meta = .ok (nb, stats)) :
    writerOpen s msl ram = .ok ⟨s.data, s.meta, nb, stats, msl, ram⟩ := by
  unfold writerOpen
  rw [if_neg (not_le.mpr hm), if_neg (not_le.mpr hr), hc]

theorem capacity_exceeded3 (w : WriterState) (m : OuterMap) (hram : w.ram_gb_limit = 3)
    (h : 3000000000 < sumNbytes m) (h64 : sumNbytes m < 2 ^ 64) :
    put_samples w (wrapArr m) = .error .capacityExceeded := by
  have hcap : w.ram_gb_limit < gbRequired (wrapArr m) := by
    rw [hram]
    unfold gbRequired
    rw [sumPayload_wrapArr, Nat.mod_eq_of_lt h64,
      lt_div_iff₀ (by norm_num : (0 : ℚ) < 10 ^ 9)]
    have : (3000000000 : ℚ) < (sumNbytes m : ℚ) := by exact_mod_cast h
    linarith
  unfold put_samples
  rw [if_pos (wrapArr_all_isNd m), if_pos hcap]

theorem check_db_stats_of_count (meta : MetaMap) (n : Nat)
    (h : alookup meta nbSamplesKey = some (pyStrInt (n : Int))) :
    check_db_stats meta = .ok ((n : Int), "auto_update_stats") := by
  simp only [check_db_stats, h]
  rw [if_neg (pyStrInt_natCast_ne_nil n), pyInt?_pyStrInt_ofNat]

theorem writerOpen_ok_elim {s : Store} {msl : Int} {ram : ℚ} {w : WriterState}
    {nb : Int} {stats : String}
    (h : writerOpen s msl ram = .ok w) (hc : check_db_stats s.meta = .ok (nb, stats)) :
    w = ⟨s.data, s.meta, nb, stats, msl, ram⟩ := by
  unfold writerOpen at h
  split at h
  · exact absurd h (by simp)
  · split at h
    · exact absurd h (by simp)
    · rw [hc] at h
      simp only [Except.ok.injEq] at h
      exact h.symm

theorem getitem_eq_get_sample (r : ReaderState) (i : Int) (h0 : 0 ≤ i)
    (h1 : i < r.nb_samples) : getitem r i = get_sample r i := by
  simp only [getitem]
  rw [if_neg (by omega : ¬ i < 0)]
  rw [if_neg (by omega : ¬ (i < 0 ∨ r.nb_samples ≤ i))]

/-! ### copyMeta lemmas -/

theorem copyMeta_preserve (rmeta : MetaMap) :
    ∀ (ks : List (List Nat)) (w : WriterState),
    (copyMeta w rmeta ks).data = w.data ∧
    (copyMeta w rmeta ks).nb_samples = w.nb_samples ∧
    (copyMeta w rmeta ks).ram_gb_limit = w.ram_gb_limit ∧
    (copyMeta w rmeta ks).db_stats = w.db_stats ∧
    (copyMeta w rmeta ks).map_size_limit = w.map_size_limit := by
  intro ks
  induction ks with
  | nil => intro w; exact ⟨rfl, rfl, rfl, rfl, rfl⟩
  | cons k rest ih =>
    intro w
    rw [copyMeta]
    have h := ih (if k = nbSamplesKey then w else set_meta_str w k (get_meta_str rmeta k))
    refine ⟨?_, ?_, ?_, ?_, ?_⟩
    · rw [h.1]; split <;> rfl
    · rw [h.2.1]; split <;> rfl
    · rw [h.2.2.1]; split <;> rfl
    · rw [h.2.2.2.1]; split <;> rfl
    · rw [h.2.2.2.2]; split <;> rfl

theorem copyMeta_lookup_ne (rmeta : MetaMap) (x : List Nat) (hx : x ≠ nbSamplesKey) :
    ∀ (ks : List (List Nat)) (w : WriterState),
    alookup (copyMeta w rmeta ks).meta x =
      if x ∈ ks then some (get_meta_str rmeta x) else alookup w.meta x := by
  intro ks
  induction ks with
  | nil => intro w; simp [copyMeta]
  | cons k rest ih =>
    intro w
    rw [copyMeta, ih]
    by_cases hmem : x ∈ rest
    · simp [hmem, List.mem_cons]
    · simp only [hmem, if_false]
      by_cases hxk : x = k
      · rw [← hxk]
        rw [if_neg hx]
        rw [if_pos (by simp : x ∈ x :: rest)]
        simp [set_meta_str]
      · rw [if_neg (show ¬ (x ∈ k :: rest) by simp [hxk, hmem])]
        split
        · rfl
        · simp only [set_meta_str]
          exact alookup_aput_ne _ _ _ _ hxk

theorem copyMeta_lookup_nbKey (rmeta : MetaMap) :
    ∀ (ks : List (List Nat)) (w : WriterState),
    alookup (copyMeta w rmeta ks).meta nbSamplesKey = alookup w.meta nbSamplesKey := by
  intro ks
  induction ks with
  | nil => intro w; rfl
  | cons k rest ih =>
    intro w
    rw [copyMeta, ih]
    split
    · rfl
    · next hk =>
      simp only [set_meta_str]
      exact alookup_aput_ne _ _ _ _ (fun h => hk h.symm)

/-! ### Append invariant lemmas -/

theorem WInv_fresh {msl : Int} {ram : ℚ} {w0 : WriterState}
    (h : writerOpen ⟨[], []⟩ msl ram = .ok w0) : WInv w0 [] := by
  rw [writerOpen_empty_elim h]
  refine ⟨rfl, ?_, ?_⟩
  · simp only [readerOpen, WriterState.store, get_meta_str, alookup_nil, pyInt?_noneStr]
    rfl
  · intro k hk
    simp at hk

theorem WInv_put {w w' : WriterState} {l : List OuterMap} {m : OuterMap}
    (hInv : WInv w l) (hm : m ≠ []) (h : put_samples w (wrapArr m) = .ok w') :
    WInv w' (l ++ [m]) := by
  obtain ⟨hnb, hrd, hdata⟩ := hInv
  have hw' := put_samples_ok h
  have hmE : (wrapArr m).isEmpty = false := by
    rw [wrapArr_isEmpty]
    exact isEmpty_false_of_ne_nil m hm
  rw [wrapArr_encode] at hw'
  have hcount : alookup (aput w.meta nbSamplesKey (pyStrInt (w.nb_samples + 1))) nbSamplesKey
      = some (pyStrInt ((l.length + 1 : Nat) : Int)) := by
    rw [alookup_aput_self]
    congr 2
    rw [hnb]
    push_cast
    ring
  refine ⟨?_, ?_, ?_⟩
  · rw [hw']
    show w.nb_samples + 1 = ((l ++ [m]).length : Int)
    rw [hnb]
    simp only [List.length_append, List.length_singleton]
    push_cast
    ring
  · rw [hw']
    have hres := readerOpen_nb_of_count
      ⟨(if (wrapArr m).isEmpty = true then w.data
        else aput w.data (keyOfIndex w.nb_samples) (encodeOuter m)),
        aput w.meta nbSamplesKey (pyStrInt (w.nb_samples + 1))⟩ (l.length + 1) hcount
    simp only [List.length_append, List.length_singleton]
    exact hres
  · intro k hk
    rw [hw']
    show alookup (if (wrapArr m).isEmpty = true then w.data
        else aput w.data (keyOfIndex w.nb_samples) (encodeOuter m)) (keyOfIndex (k : Int))
      = some (encodeOuter (l ++ [m])[k])
    simp only [hmE, Bool.false_eq_true, if_false]
    have hk2 : k < l.length + 1 := by
      simpa using hk
    by_cases hkl : k < l.length
    · have hne : keyOfIndex (k : Int) ≠ keyOfIndex w.nb_samples := by
        intro hEq
        have := keyOfIndex_injective hEq
        rw [hnb] at this
        omega
      rw [alookup_aput_ne _ _ _ _ hne, hdata k hkl]
      congr 2
      rw [List.getElem_append_left hkl]
    · have hkEq : k = l.length := by omega
      have hkey : keyOfIndex (k : Int) = keyOfIndex w.nb_samples := by rw [hkEq, hnb]
      rw [hkey, alookup_aput_self]
      have hgm : (l ++ [m])[k] = m := by
        rw [List.getElem_append_right (by omega : l.length ≤ k)]
        simp [hkEq]
      rw [hgm]

theorem putList_WInv : ∀ (rest : List OuterMap) (w w' : WriterState) (l : List OuterMap),
    WInv w l → (∀ m ∈ rest, m ≠ []) → putList w rest = .ok w' → WInv w' (l ++ rest) := by
  intro rest
  induction rest with
  | nil =>
    intro w w' l hInv _ h
    simp only [putList, Except.ok.injEq] at h
    rw [← h, List.append_nil]
    exact hInv
  | cons m rest ih =>
    intro w w' l hInv hne h
    rw [putList] at h
    cases hp : put_samples w (wrapArr m) with
    | error e => rw [hp] at h; exact Except.noConfusion h
    | ok w1 =>
      rw [hp] at h
      have h1 : WInv w1 (l ++ [m]) := WInv_put hInv (hne m (by simp)) hp
      have := ih w1 w' (l ++ [m]) h1 (fun x hx => hne x (by simp [hx])) h
      rwa [List.append_assoc, List.singleton_append] at this

theorem putList_nb : ∀ (rest : List OuterMap) (w w' : WriterState),
    putList w rest = .ok w' → w'.nb_samples = w.nb_samples + rest.length := by
  intro rest
  induction rest with
  | nil =>
    intro w w' h
    simp only [putList, Except.ok.injEq] at h
    rw [← h]
    simp
  | cons m rest ih =>
    intro w w' h
    rw [putList] at h
    cases hp : put_samples w (wrapArr m) with
    | error e => rw [hp] at h; exact Except.noConfusion h
    | ok w1 =>
      rw [hp] at h
      have h1 := put_samples_ok hp
      have h2 := ih w1 w' h
      rw [h2, h1]
      show w.nb_samples + 1 + (rest.length : Int) = w.nb_samples + ((m :: rest).length : Int)
      simp only [List.length_cons]
      push_cast
      ring

/-! ### Claim theorems -/

/-- C1 (amended): after `n` successful `put_samples` calls with nonempty
field mappings on a Writer opened on an empty directory, a Reader opened on
the resulting store reports `length() == n` and, for every `0 ≤ k < n`,
`get_sample(k)` returns a field mapping equal (same names, per-field equal
dtype, shape and contents, in insertion order) to the mapping passed to the
k-th call. -/
theorem put_samples_roundtrip_nonempty (msl : Int) (ram : ℚ) (w0 w : WriterState)
    (samples : List OuterMap)
    (hopen : writerOpen ⟨[], []⟩ msl ram = .ok w0)
    (hne : ∀ m ∈ samples, m ≠ [])
    (hput : putList w0 samples = .ok w) :
    (readerOpen w.store).nb_samples = (samples.length : Int) ∧
    ∀ k : Nat, (hk : k < samples.length) →
      get_sample (readerOpen w.store) (k : Int) = .ok samples[k] := by
  have hInv : WInv w samples := by
    have := putList_WInv samples w0 w [] (WInv_fresh hopen) hne hput
    simpa using this
  obtain ⟨hnb, hrd, hdata⟩ := hInv
  refine ⟨hrd, ?_⟩
  intro k hk
  have hbound : ¬ (((k : Int) < 0) ∨ (readerOpen w.store).nb_samples ≤ (k : Int)) := by
    rw [hrd]
    omega
  unfold get_sample
  rw [if_neg hbound]
  show (match alookup w.data (keyOfIndex (k : Int)) with
    | none => Except.error LmdbError.typeError
    | some outer => Except.ok (decodeOuter outer)) = Except.ok samples[k]
  rw [hdata k hk]
  simp

/-- C1 witness: two concrete samples round-trip through a fresh store. -/
theorem put_samples_roundtrip_example :
    (readerOpen Wc.store).nb_samples = 2 ∧
    get_sample (readerOpen Wc.store) 0 = .ok sampleX ∧
    get_sample (readerOpen Wc.store) 1 = .ok sampleY := by
  have p1 : put_samples (freshW 1 3) (wrapArr sampleX) = .ok Wc1 := by
    rw [put_samples_wrap_ok _ _ (by decide) (capacity_ok3 sampleX (by decide))]
    decide
  have p2 : put_samples Wc1 (wrapArr sampleY) = .ok Wc := by
    rw [put_samples_wrap_ok _ _ (by decide) (capacity_ok3 sampleY (by decide))]
    decide
  have hput : putList (freshW 1 3) [sampleX, sampleY] = .ok Wc := by
    simp only [putList, p1, p2]
  have h := put_samples_roundtrip_nonempty 1 3 (freshW 1 3) Wc [sampleX, sampleY]
    (writerOpen_empty 1 (by norm_num)) (by decide) hput
  refine ⟨by simpa using h.1, ?_, ?_⟩
  · have := h.2 0 (by norm_num)
    simpa using this
  · have := h.2 1 (by norm_num)
    simpa using this

/-- C1 counterexample: a `put_samples` call with an empty field mapping
succeeds and bumps the count to 1, yet the committed store has no entry for
index 0, so `get_sample(0)` raises instead of returning the mapping that was
passed. -/
theorem put_samples_empty_mapping_breaks_readback :
    writerOpen ⟨[], []⟩ 1 3 = .ok (freshW 1 3) ∧
    putList (freshW 1 3) [[]] = .ok W1e ∧
    (readerOpen W1e.store).nb_samples = 1 ∧
    get_sample (readerOpen W1e.store) 0 = .error .typeError := by
  have pe : put_samples (freshW 1 3) (wrapArr []) = .ok W1e := by
    rw [put_samples_wrap_eq _ [] (capacity_ok3 [] (by decide))]
    decide
  refine ⟨writerOpen_empty 1 (by norm_num), ?_, by decide, by decide⟩
  simp only [putList, pe]

/-- C3 (amended): closing a Writer after `n` puts and reopening yields cursor
`n` with `db_stats == auto_update_stats` (a fresh open reports
`create_stats`), and the next `put_samples` call with a nonempty mapping
commits its sample at index `n`; an empty mapping still advances the cursor
but stores nothing. -/
theorem writer_resume_cursor (msl msl2 : Int) (ram ram2 : ℚ) (w0 w w2 : WriterState)
    (samples : List OuterMap)
    (hopen : writerOpen ⟨[], []⟩ msl ram = .ok w0)
    (hput : putList w0 samples = .ok w)
    (hreopen : writerOpen (writerClose w) msl2 ram2 = .ok w2) :
    w0.db_stats = "create_stats" ∧
    w2.nb_samples = (samples.length : Int) ∧
    w2.db_stats = "auto_update_stats" ∧
    ∀ (m : OuterMap) (w3 : WriterState), m ≠ [] → put_samples w2 (wrapArr m) = .ok w3 →
      w3.nb_samples = (samples.length : Int) + 1 ∧
      alookup w3.data (keyOfIndex (samples.length : Int)) = some (encodeOuter m) := by
  have hw0 := writerOpen_empty_elim hopen
  have hnbw : w.nb_samples = ((samples.length : Nat) : Int) := by
    have := putList_nb samples w0 w hput
    rw [this, hw0]
    simp
  have hlook : alookup (writerClose w).meta nbSamplesKey
      = some (pyStrInt ((samples.length : Nat) : Int)) := by
    unfold writerClose
    rw [alookup_aput_self, hnbw]
  have hstats := check_db_stats_of_count (writerClose w).meta samples.length hlook
  have hw2 := writerOpen_ok_elim hreopen hstats
  refine ⟨by rw [hw0], by rw [hw2], by rw [hw2], ?_⟩
  intro m w3 hm hput3
  have hw3 := put_samples_ok hput3
  rw [wrapArr_encode] at hw3
  have hmE : (wrapArr m).isEmpty = false := by
    rw [wrapArr_isEmpty]
    exact isEmpty_false_of_ne_nil m hm
  constructor
  · rw [hw3]
    show w2.nb_samples + 1 = (samples.length : Int) + 1
    rw [hw2]
  · rw [hw3]
    show alookup (if (wrapArr m).isEmpty = true then w2.data
        else aput w2.data (keyOfIndex w2.nb_samples) (encodeOuter m))
        (keyOfIndex (samples.length : Int)) = some (encodeOuter m)
    rw [hmE]
    simp only [Bool.false_eq_true, if_false]
    have : keyOfIndex w2.nb_samples = keyOfIndex ((samples.length : Nat) : Int) := by
      rw [hw2]
    rw [this, alookup_aput_self]

/-- C3 witness: close after one put, reopen, observe cursor 1 and resume
mode, then the next put lands at index 1. -/
theorem writer_resume_cursor_example :
    W2c.nb_samples = 1 ∧ W2c.db_stats = "auto_update_stats" ∧
    W3c.nb_samples = 2 ∧ alookup W3c.data (keyOfIndex 1) = some (encodeOuter sampleY) := by
  have p1 : put_samples (freshW 1 3) (wrapArr sampleX) = .ok Wc1 := by
    rw [put_samples_wrap_ok _ _ (by decide) (capacity_ok3 sampleX (by decide))]
    decide
  have hput : putList (freshW 1 3) [sampleX] = .ok Wc1 := by
    simp only [putList, p1]
  have hreopen : writerOpen (writerClose Wc1) 5 3 = .ok W2c := by
    rw [writerOpen_pos (writerClose Wc1) 5 3 (by norm_num) (by norm_num) 1
      "auto_update_stats" (by decide)]
    decide
  have h := writer_resume_cursor 1 5 3 3 (freshW 1 3) Wc1 W2c [sampleX]
    (writerOpen_empty 1 (by norm_num)) hput hreopen
  have p2 : put_samples W2c (wrapArr sampleY) = .ok W3c := by
    rw [put_samples_wrap_ok _ _ (by decide) (capacity_ok3 sampleY (by decide))]
    decide
  have h4 := h.2.2.2 sampleY W3c (by decide) p2
  exact ⟨by simpa using h.2.1, h.2.2.1, by simpa using h4.1, by simpa using h4.2⟩

/-- C3 counterexample: on a reopened Writer with cursor `n = 0`, a successful
`put_samples` call with an empty mapping advances the cursor without
committing any sample at index 0, contradicting the claim that the next put
call commits its sample at index `n`. -/
theorem writer_resume_put_empty :
    writerOpen (writerClose (freshW 1 3)) 1 3 = .ok W2e ∧
    put_samples W2e [] = .ok W3e ∧
    W3e.nb_samples = 1 ∧
    alookup W3e.data (keyOfIndex 0) = none := by
  have hreopen : writerOpen (writerClose (freshW 1 3)) 1 3 = .ok W2e := by
    rw [writerOpen_pos (writerClose (freshW 1 3)) 1 3 (by norm_num) (by norm_num) 0
      "auto_update_stats" (by decide)]
    decide
  have pe : put_samples W2e [] = .ok W3e := by
    rw [show put_samples W2e [] = put_samples W2e (wrapArr []) from rfl,
      put_samples_wrap_eq _ [] (capacity_ok3 [] (by decide))]
    decide
  exact ⟨hreopen, pe, by decide, by decide⟩

/-- C4 (amended): a sample mapping containing any non-`ndarray` field value
makes `put_samples` raise the unsupported-type error before any write; the
later scalar-to-array coercion inside `put_samples` is dead code, so such a
value is never coerced and committed. -/
theorem put_samples_rejects_non_array (w : WriterState)
    (samples : List (List Nat × FieldValue)) (k : List Nat) (a : NDArray)
    (hmem : (k, FieldValue.nonArray a) ∈ samples) :
    put_samples w samples = .error .unsupportedType := by
  have hall : (samples.all fun p => p.2.isNd) = false :=
    List.all_eq_false.mpr ⟨(k, FieldValue.nonArray a), hmem, by simp [FieldValue.isNd]⟩
  unfold put_samples
  rw [hall]
  simp

/-- C4 witness: a mapping holding an array and a Python scalar is rejected. -/
theorem put_samples_rejects_non_array_example :
    put_samples (freshW 2 3) [([120], FieldValue.ndarray arr1), ([115], scalarVal)]
      = .error .unsupportedType :=
  put_samples_rejects_non_array _ _ [115] nsArr (by decide)

/-- C4 counterexample: a scalar field value is not coerced and committed;
the call fails with the unsupported-type error instead. -/
theorem put_samples_scalar_not_coerced :
    put_samples (freshW 1 3) [([115], scalarVal)] = .error .unsupportedType := by decide

/-- C5: a `put_samples` call whose total payload (in bytes, below the
`np.uint64` wrap-around) exceeds `ram_gb_limit` gigabytes fails with the
capacity error; the source raises before opening the write transaction and
before the cursor increment, so the functional model returns the error with
no successor state — `length()` and the cursor are unchanged. -/
theorem put_samples_capacity_guard (w : WriterState)
    (samples : List (List Nat × FieldValue))
    (hnd : (samples.all fun p => p.2.isNd) = true)
    (hfit : ((samples.map fun p => p.2.npArray.nbytes).sum) < 2 ^ 64)
    (hover : w.ram_gb_limit * 10 ^ 9 < (((samples.map fun p => p.2.npArray.nbytes).sum : Nat) : ℚ)) :
    put_samples w samples = .error .capacityExceeded := by
  have hcap : w.ram_gb_limit < gbRequired samples := by
    unfold gbRequired sumPayload
    rw [Nat.mod_eq_of_lt hfit]
    rw [lt_div_iff₀ (by norm_num : (0 : ℚ) < 10 ^ 9)]
    exact hover
  unfold put_samples
  rw [if_pos hnd, if_pos hcap]

/-- C5 witness: a 4 GB payload against the default 3 GB budget. -/
theorem put_samples_capacity_guard_example :
    put_samples (freshW 100 3) [([98], FieldValue.ndarray bigArr)]
      = .error .capacityExceeded :=
  put_samples_capacity_guard _ _ (by decide) (by decide)
    (by
      show (3 : ℚ) * 10 ^ 9 < ((4000000000 : Nat) : ℚ)
      norm_num)

/-- C6 (amended): `change_db_value` rejects every index at or above the
current count with the out-of-range error, and for `0 ≤ k < count` (with a
payload inside the RAM budget) it overwrites only index `k`'s content,
leaving every other index, the metadata, and the sample count unchanged.
Negative indices, however, are not rejected: they pass the only bound check
(`key < nb_samples`) and write under a sign-prefixed key. -/
theorem change_db_value_bounds (w : WriterState) (m : OuterMap) :
    (∀ k : Int, w.nb_samples ≤ k → change_db_value w k (wrapArr m) = .error .outOfRange) ∧
    (∀ k : Int, 0 ≤ k → k < w.nb_samples →
      ¬ w.ram_gb_limit < gbRequired (wrapArr m) →
      ∃ w' : WriterState, change_db_value w k (wrapArr m) = .ok w' ∧
        w'.nb_samples = w.nb_samples ∧ w'.meta = w.meta ∧
        (∀ j : Int, j ≠ k → alookup w'.data (keyOfIndex j) = alookup w.data (keyOfIndex j)) ∧
        (m ≠ [] → alookup w'.data (keyOfIndex k) = some (encodeOuter m))) := by
  constructor
  · intro k hk
    unfold change_db_value
    rw [if_neg (by omega : ¬ k < w.nb_samples)]
  · intro k hk0 hk1 hcap
    unfold change_db_value change_value
    rw [if_pos (by omega : k < w.nb_samples), if_pos (wrapArr_all_isNd m), if_neg hcap,
      wrapArr_encode, wrapArr_isEmpty]
    refine ⟨_, rfl, rfl, rfl, ?_, ?_⟩
    · intro j hj
      show alookup (if m.isEmpty = true then w.data
          else aput w.data (keyOfIndex k) (encodeOuter m)) (keyOfIndex j)
        = alookup w.data (keyOfIndex j)
      split
      · rfl
      · exact alookup_aput_ne _ _ _ _ (fun hEq => hj (keyOfIndex_injective hEq))
    · intro hm
      show alookup (if m.isEmpty = true then w.data
          else aput w.data (keyOfIndex k) (encodeOuter m)) (keyOfIndex k)
        = some (encodeOuter m)
      rw [isEmpty_false_of_ne_nil m hm]
      simp

/-- C6 witness: on a one-sample writer, overwriting index 1 fails
out-of-range while overwriting index 0 succeeds. -/
theorem change_db_value_bounds_example :
    change_db_value Wcex 1 (wrapArr sampleY) = .error .outOfRange ∧
    (change_db_value Wcex 0 (wrapArr sampleY)).isOk = true := by
  have h := change_db_value_bounds Wcex sampleY
  refine ⟨h.1 1 (by decide), ?_⟩
  obtain ⟨w', hok, _⟩ := h.2 0 (by norm_num) (by decide) (capacity_ok3 sampleY (by decide))
  rw [hok]
  rfl

/-- C6 counterexample: `change_db_value(-1, ...)` on a one-sample writer does
not fail with the out-of-range error — the negative index passes the only
bound check and the content is written under the sign-prefixed key. -/
theorem change_db_value_negative_index_accepted :
    change_db_value Wcex (-1) (wrapArr sampleY) = .ok WcexNeg := by
  unfold change_db_value
  rw [if_pos (by decide : (-1 : Int) < Wcex.nb_samples)]
  rw [change_value_wrap_eq Wcex (-1) sampleY (capacity_ok3 sampleY (by decide))]
  decide

/-- C7 (amended): for a Reader with at least one sample, the indexing
operator `reader[-1]` returns the same sample as `get_sample(length()-1)`,
`get_sample(length())` and `reader[length()]` fail out-of-range, and
`reader[i]` for `i < -length()` fails out-of-range; but `get_sample` itself
rejects every negative index — only `__getitem__` performs the negative
wraparound. -/
theorem reader_negative_indexing (r : ReaderState) (h1 : 1 ≤ r.nb_samples) :
    getitem r (-1) = get_sample r (r.nb_samples - 1) ∧
    get_sample r r.nb_samples = .error .outOfRange ∧
    getitem r r.nb_samples = .error .outOfRange ∧
    (∀ i : Int, i < -r.nb_samples → getitem r i = .error .outOfRange) ∧
    (∀ i : Int, i < 0 → get_sample r i = .error .outOfRange) := by
  refine ⟨?_, ?_, ?_, ?_, ?_⟩
  · simp only [getitem]
    rw [if_pos (by omega : (-1 : Int) < 0)]
    rw [if_neg (by omega : ¬ ((-1) + r.nb_samples < 0 ∨ r.nb_samples ≤ (-1) + r.nb_samples))]
    congr 1
    omega
  · unfold get_sample
    rw [if_pos (Or.inr le_rfl)]
  · simp only [getitem]
    rw [if_neg (by omega : ¬ r.nb_samples < 0)]
    rw [if_pos (Or.inr le_rfl)]
  · intro i hi
    simp only [getitem]
    rw [if_pos (by omega : i < 0)]
    rw [if_pos (by omega : i + r.nb_samples < 0 ∨ r.nb_samples ≤ i + r.nb_samples)]
  · intro i hi
    unfold get_sample
    rw [if_pos (Or.inl hi)]

/-- C7 witness: on a one-sample reader, `reader[-1]` equals `get_sample(0)`,
`get_sample(1)` fails, and `reader[-2]` fails. -/
theorem reader_negative_indexing_example :
    getitem Rc (-1) = get_sample Rc 0 ∧
    get_sample Rc 1 = .error .outOfRange ∧
    getitem Rc (-2) = .error .outOfRange := by
  have h := reader_negative_indexing Rc (by decide)
  exact ⟨by simpa using h.1, by simpa using h.2.1, h.2.2.2.1 (-2) (by decide)⟩

/-- C7 counterexample: `get_sample(-1)` raises out-of-range even though the
store has a sample at `length()-1` — the two calls are not equal, refuting
the claim as stated for `get_sample`. -/
theorem get_sample_negative_raises :
    get_sample Rc (-1) = .error .outOfRange ∧ get_sample Rc 0 = .ok sampleX := by decide

/-- C8: opening a Reader on a store whose sample-count metadata key is absent
or whose value fails integer parsing succeeds (Reader construction is total)
and reports length 0 rather than raising. -/
theorem reader_zero_length_open (s : Store)
    (h : alookup s.meta nbSamplesKey = none ∨
         ∃ v, alookup s.meta nbSamplesKey = some v ∧ pyInt? v = none) :
    (readerOpen s).nb_samples = 0 := by
  rcases h with h | ⟨v, hv, hpv⟩
  · simp only [readerOpen, get_meta_str, h, pyInt?_noneStr]
  · simp only [readerOpen, get_meta_str, hv, hpv]

/-- C8 witness: a store with a non-numeric count and a fully empty store both
open with length 0. -/
theorem reader_zero_length_open_example :
    (readerOpen badStore).nb_samples = 0 ∧
    (readerOpen (⟨[], []⟩ : Store)).nb_samples = 0 :=
  ⟨reader_zero_length_open badStore (Or.inr ⟨[97, 98, 99], by decide, by decide⟩),
   reader_zero_length_open ⟨[], []⟩ (Or.inl (by decide))⟩

/-- C9: for indices `i < j < 10^10`, the data-namespace keys are exactly 10
ASCII digit bytes, distinct, and the key of `i` precedes the key of `j` in
byte-wise lexicographic order, so key order matches numeric index order. -/
theorem data_key_order (i j : Nat) (hij : i < j) (hj : j < 10 ^ 10) :
    (natKey i).length = 10 ∧ (natKey j).length = 10 ∧
    (∀ b ∈ natKey i, 48 ≤ b ∧ b ≤ 57) ∧
    natKey i ≠ natKey j ∧
    byteLexLt (natKey i) (natKey j) = true := by
  have hi : i < 10 ^ 10 := lt_trans hij hj
  refine ⟨?_, ?_, ?_, ?_, ?_⟩
  · rw [natKey_eq_of_lt hi]
    simp
  · rw [natKey_eq_of_lt hj]
    simp
  · intro b hb
    unfold natKey at hb
    simp only [List.mem_map] at hb
    obtain ⟨d, hd, rfl⟩ := hb
    have := digitsW_mem_lt _ _ d hd
    omega
  · intro hEq
    have := natKey_injective hEq
    omega
  · rw [natKey_eq_of_lt hi, natKey_eq_of_lt hj]
    exact byteLexLt_digits 10 i j hij hj

/-- C9 witness: keys of indices 3 and 17. -/
theorem data_key_order_example :
    (natKey 3).length = 10 ∧ byteLexLt (natKey 3) (natKey 17) = true :=
  ⟨(data_key_order 3 17 (by norm_num) (by norm_num)).1,
   (data_key_order 3 17 (by norm_num) (by norm_num)).2.2.2.2⟩

/-- C10: `get_meta_str` on an absent key returns the literal four-character
string None (the stringified null lookup result), identical to what it
returns when the stored value is the string None — the two cases are
indistinguishable at this interface. -/
theorem get_meta_str_absent_none :
    (∀ (meta : MetaMap) (k : List Nat),
      alookup meta k = none → get_meta_str meta k = noneStr) ∧
    (∀ (meta : MetaMap) (k : List Nat),
      alookup meta k = some noneStr → get_meta_str meta k = noneStr) := by
  constructor
  · intro meta k h
    simp only [get_meta_str, h]
  · intro meta k h
    simp only [get_meta_str, h]

/-- C10 witness: an absent key and a stored None value produce the same
result. -/
theorem get_meta_str_absent_none_example :
    get_meta_str [] [107] = noneStr ∧
    get_meta_str [([107], noneStr)] [107] = noneStr :=
  ⟨get_meta_str_absent_none.1 [] [107] rfl,
   get_meta_str_absent_none.2 [([107], noneStr)] [107] (by decide)⟩

/-- C2 (amended): for stores A (with retrievable samples `a0, a1`) and B
(with retrievable sample `b0`) whose samples are nonempty mappings each
within the merge writer's default 3 GB RAM budget, merging into a fresh
target succeeds and produces a store of length 3 holding `a0, a1, b0` at
indices 0, 1, 2; a metadata key present in B ends up with B's value,
a key present only in A keeps A's value, and the reserved count key holds
the target writer's own count `str(3)`, never a copied value. -/
theorem merge_db_ordering (msl : Int) (A B : Store) (a0 a1 b0 : OuterMap)
    (hmsl : 0 < msl)
    (hA : (readerOpen A).nb_samples = 2)
    (hB : (readerOpen B).nb_samples = 1)
    (ha0 : get_sample (readerOpen A) 0 = .ok a0)
    (ha1 : get_sample (readerOpen A) 1 = .ok a1)
    (hb0 : get_sample (readerOpen B) 0 = .ok b0)
    (ha0ne : a0 ≠ []) (ha1ne : a1 ≠ []) (hb0ne : b0 ≠ [])
    (hsa0 : sumNbytes a0 ≤ 3000000000) (hsa1 : sumNbytes a1 ≤ 3000000000)
    (hsb0 : sumNbytes b0 ≤ 3000000000) :
    ∃ M : Store, merge_db ⟨[], []⟩ A B msl = .ok M ∧
      (readerOpen M).nb_samples = 3 ∧
      get_sample (readerOpen M) 0 = .ok a0 ∧
      get_sample (readerOpen M) 1 = .ok a1 ∧
      get_sample (readerOpen M) 2 = .ok b0 ∧
      alookup M.meta nbSamplesKey = some (pyStrInt 3) ∧
      (∀ k v, k ≠ nbSamplesKey → alookup B.meta k = some v →
        alookup M.meta k = some v) ∧
      (∀ k v, k ≠ nbSamplesKey → alookup B.meta k = none → alookup A.meta k = some v →
        alookup M.meta k = some v) := by
  have hg0 : getitem (readerOpen A) ((0 : Nat) : Int) = .ok a0 := by
    rw [getitem_eq_get_sample _ _ (by positivity) (by rw [hA]; norm_num)]
    simpa using ha0
  have hg1 : getitem (readerOpen A) ((1 : Nat) : Int) = .ok a1 := by
    rw [getitem_eq_get_sample _ _ (by positivity) (by rw [hA]; norm_num)]
    simpa using ha1
  have hgb : getitem (readerOpen B) ((0 : Nat) : Int) = .ok b0 := by
    rw [getitem_eq_get_sample _ _ (by positivity) (by rw [hB]; norm_num)]
    simpa using hb0
  have hput0 : put_samples (freshW msl 3) (wrapArr a0) = .ok (mW1 msl a0) := by
    rw [put_samples_wrap_ok _ _ ha0ne (capacity_ok3 a0 hsa0)]
    rfl
  have hput1 : put_samples (mW1 msl a0) (wrapArr a1) = .ok (mW2 msl a0 a1) := by
    rw [put_samples_wrap_ok _ _ ha1ne (capacity_ok3 a1 hsa1)]
    rfl
  have hputsA : putAllFrom (readerOpen A) (freshW msl 3) [0, 1] = .ok (mW2 msl a0 a1) := by
    simp only [putAllFrom, hg0, hput0, hg1, hput1]
  obtain ⟨hdA, hnA, hrA, hsA, hmA⟩ :=
    copyMeta_preserve A.meta (get_meta_key_info A.meta) (mW2 msl a0 a1)
  have hcapb : ¬ (copyMeta (mW2 msl a0 a1) A.meta (get_meta_key_info A.meta)).ram_gb_limit
      < gbRequired (wrapArr b0) := by
    rw [hrA]
    exact capacity_ok3 b0 hsb0
  have hputb : put_samples (copyMeta (mW2 msl a0 a1) A.meta (get_meta_key_info A.meta))
      (wrapArr b0)
      = .ok (mW3 (copyMeta (mW2 msl a0 a1) A.meta (get_meta_key_info A.meta)) b0) :=
    put_samples_wrap_ok _ _ hb0ne hcapb
  have hputsB : putAllFrom (readerOpen B)
      (copyMeta (mW2 msl a0 a1) A.meta (get_meta_key_info A.meta)) [0]
      = .ok (mW3 (copyMeta (mW2 msl a0 a1) A.meta (get_meta_key_info A.meta)) b0) := by
    simp only [putAllFrom, hgb, hputb]
  obtain ⟨hdB, hnB, hrB, hsB, hmB⟩ := copyMeta_preserve B.meta (get_meta_key_info B.meta)
    (mW3 (copyMeta (mW2 msl a0 a1) A.meta (get_meta_key_info A.meta)) b0)
  have hrAmeta : (readerOpen A).meta = A.meta := rfl
  have hrBmeta : (readerOpen B).meta = B.meta := rfl
  have hr2 : List.range ((2 : Int)).toNat = [0, 1] := rfl
  have hr1 : List.range ((1 : Int)).toNat = [0] := rfl
  have hmerge : merge_db ⟨[], []⟩ A B msl
      = .ok (writerClose (copyMeta
          (mW3 (copyMeta (mW2 msl a0 a1) A.meta (get_meta_key_info A.meta)) b0)
          B.meta (get_meta_key_info B.meta))) := by
    simp only [merge_db, writerOpen_empty msl hmsl, hrAmeta, hrBmeta, hA, hB, hr2, hr1,
      hputsA, hputsB]
  have hw4nb : (copyMeta
      (mW3 (copyMeta (mW2 msl a0 a1) A.meta (get_meta_key_info A.meta)) b0)
      B.meta (get_meta_key_info B.meta)).nb_samples = 3 := by
    rw [hnB]
    show (copyMeta (mW2 msl a0 a1) A.meta (get_meta_key_info A.meta)).nb_samples + 1 = 3
    rw [hnA]
    rfl
  have hMmeta : (writerClose (copyMeta
      (mW3 (copyMeta (mW2 msl a0 a1) A.meta (get_meta_key_info A.meta)) b0)
      B.meta (get_meta_key_info B.meta))).meta
      = aput (copyMeta
          (mW3 (copyMeta (mW2 msl a0 a1) A.meta (get_meta_key_info A.meta)) b0)
          B.meta (get_meta_key_info B.meta)).meta nbSamplesKey (pyStrInt 3) := by
    show aput _ nbSamplesKey (pyStrInt (copyMeta
      (mW3 (copyMeta (mW2 msl a0 a1) A.meta (get_meta_key_info A.meta)) b0)
      B.meta (get_meta_key_info B.meta)).nb_samples) = _
    rw [hw4nb]
  have hMcount : alookup (writerClose (copyMeta
      (mW3 (copyMeta (mW2 msl a0 a1) A.meta (get_meta_key_info A.meta)) b0)
      B.meta (get_meta_key_info B.meta))).meta nbSamplesKey
      = some (pyStrInt ((3 : Nat) : Int)) := by
    rw [hMmeta, alookup_aput_self]
    rfl
  have hMnb := readerOpen_nb_of_count _ 3 hMcount
  have hMdata : (readerOpen (writerClose (copyMeta
      (mW3 (copyMeta (mW2 msl a0 a1) A.meta (get_meta_key_info A.meta)) b0)
      B.meta (get_meta_key_info B.meta)))).data
      = aput (mW2 msl a0 a1).data (keyOfIndex 2) (encodeOuter b0) := by
    show (copyMeta
      (mW3 (copyMeta (mW2 msl a0 a1) A.meta (get_meta_key_info A.meta)) b0)
      B.meta (get_meta_key_info B.meta)).data = _
    rw [hdB]
    show aput (copyMeta (mW2 msl a0 a1) A.meta (get_meta_key_info A.meta)).data
      (keyOfIndex (copyMeta (mW2 msl a0 a1) A.meta
        (get_meta_key_info A.meta)).nb_samples) (encodeOuter b0) = _
    rw [hdA, hnA]
    rfl
  refine ⟨_, hmerge, by exact_mod_cast hMnb, ?_, ?_, ?_, ?_, ?_, ?_⟩
  · unfold get_sample
    rw [if_neg (by rw [hMnb]; norm_num)]
    rw [hMdata]
    rw [alookup_aput_ne _ _ _ _ (by decide : keyOfIndex (0 : Int) ≠ keyOfIndex 2)]
    simp only [mW2, mW1]
    rw [alookup_aput_ne _ _ _ _ (by decide : keyOfIndex (0 : Int) ≠ keyOfIndex 1)]
    rw [alookup_aput_self]
    simp
  · unfold get_sample
    rw [if_neg (by rw [hMnb]; norm_num)]
    rw [hMdata]
    rw [alookup_aput_ne _ _ _ _ (by decide : keyOfIndex (1 : Int) ≠ keyOfIndex 2)]
    simp only [mW2, mW1]
    rw [alookup_aput_self]
    simp
  · unfold get_sample
    rw [if_neg (by rw [hMnb]; norm_num)]
    rw [hMdata]
    rw [alookup_aput_self]
    simp
  · rw [hMmeta, alookup_aput_self]
  · intro k v hk hv
    rw [hMmeta, alookup_aput_ne _ _ _ _ hk]
    rw [copyMeta_lookup_ne B.meta k hk]
    rw [if_pos (show k ∈ get_meta_key_info B.meta from alookup_mem_fst B.meta k v hv)]
    unfold get_meta_str
    rw [hv]
  · intro k v hk hvB hvA
    rw [hMmeta, alookup_aput_ne _ _ _ _ hk]
    rw [copyMeta_lookup_ne B.meta k hk]
    rw [if_neg (show k ∉ get_meta_key_info B.meta by
      intro hmem
      obtain ⟨v', hv'⟩ := alookup_isSome_of_mem_fst B.meta k hmem
      rw [hvB] at hv'
      exact Option.noConfusion hv')]
    simp only [mW3]
    rw [alookup_aput_ne _ _ _ _ hk]
    rw [copyMeta_lookup_ne A.meta k hk]
    rw [if_pos (show k ∈ get_meta_key_info A.meta from alookup_mem_fst A.meta k v hvA)]
    unfold get_meta_str
    rw [hvA]

/-- C2 witness: merging a concrete two-sample store and a one-sample store
yields length 3, the samples in order, B's value for the shared key kk, A's
value for its private key note, and the writer-maintained count 3. -/
theorem merge_db_ordering_example :
    (merge_db ⟨[], []⟩ Ac Bc 10000).map
      (fun M => ((readerOpen M).nb_samples,
        get_sample (readerOpen M) 0, get_sample (readerOpen M) 2,
        alookup M.meta [107, 107], alookup M.meta [110, 111, 116, 101],
        alookup M.meta nbSamplesKey))
      = .ok (3, .ok sampleX, .ok sampleX, some [98],
        some [102, 105, 114, 115, 116], some (pyStrInt 3)) := by
  obtain ⟨M, hM, h1, h2, h3, h4, h5, h6, h7⟩ :=
    merge_db_ordering 10000 Ac Bc sampleX sampleY sampleX (by norm_num)
      (by decide) (by decide) (by decide) (by decide) (by decide)
      (by decide) (by decide) (by decide) (by decide) (by decide) (by decide)
  have hkk := h6 [107, 107] [98] (by decide) (by decide)
  have hnote := h7 [110, 111, 116, 101] [102, 105, 114, 115, 116]
    (by decide) (by decide) (by decide)
  rw [hM]
  simp only [Except.map, h1, h2, h4, h5, hkk, hnote]

/-- C2 counterexample: merging a store whose first sample carries a 4 GB
payload aborts with the capacity error, because `merge_db` opens its target
Writer with the default 3 GB `ram_gb_limit` — the claim's universally
promised length-3 result does not materialise. -/
theorem merge_db_large_sample_capacity :
    merge_db ⟨[], []⟩ Abig Bsmall 10000 = .error .capacityExceeded := by
  have hra : (readerOpen Abig).nb_samples = 2 := by decide
  have hg0 : getitem (readerOpen Abig) ((0 : Nat) : Int) = .ok [([120], bigArr)] := by
    decide
  have hput : put_samples (freshW 10000 3) (wrapArr [([120], bigArr)])
      = .error .capacityExceeded :=
    capacity_exceeded3 _ _ rfl (by decide) (by decide)
  have hr2 : List.range ((2 : Int)).toNat = [0, 1] := rfl
  simp only [merge_db, writerOpen_empty 10000 (by norm_num), hra, hr2, putAllFrom,
    hg0, hput]

end PyLmdb
